import Mathlib

/-!
Shallow embedding of the coffee-yield-prediction pipeline
(notebooks/05_vegetation_indices_calculation.ipynb and
notebooks/09_yield_prediction_model.ipynb), together with proofs of the
specification's claims about it.

Numeric cell values are modelled as `Option ℚ`: `none` is a missing value
(pandas `NaN`), `some q` a present numeric value.
-/

namespace CoffeeYield

/-! ## Temporal Aggregator (notebook 05)

The notebook maps `woreda_id` to `woreda_name` via the reference boundary
set, drops rows whose name could not be mapped, groups by
`(woreda_id, woreda_name, year, month)` taking the mean of each numeric
column, and finally sorts by `(woreda_id, year, month)`. -/

/-- A raw monthly vegetation-index observation row (after the per-file
rename to `woreda_id`/`avg_ndvi`/`avg_savi`). -/
structure VIRow where
  woreda_id : String
  year : Int
  month : Int
  avg_ndvi : Option ℚ
  avg_savi : Option ℚ
  deriving DecidableEq

/-- An aggregated output row: one per (woreda, year, month). -/
structure AggRow where
  woreda_id : String
  woreda_name : String
  year : Int
  month : Int
  avg_ndvi : Option ℚ
  avg_savi : Option ℚ
  deriving DecidableEq

/-- pandas mean over a column: skips missing values; `NaN` when no value
is present (modelled as `none`). -/
def nanMean (vs : List ℚ) : Option ℚ :=
  if vs.isEmpty then none else some (vs.sum / vs.length)

/-- Name mapping `df_monthly_vi['woreda_name'] = ....map(woreda_name_map)` followed by
`dropna(subset=['woreda_name'])`: attach the mapped name, dropping rows
whose `woreda_id` is not in the reference boundary set. -/
def mappedRows (nameMap : String → Option String) (rows : List VIRow) :
    List AggRow :=
  rows.filterMap (fun r =>
    (nameMap r.woreda_id).map (fun nm =>
      { woreda_id := r.woreda_id, woreda_name := nm, year := r.year,
        month := r.month, avg_ndvi := r.avg_ndvi, avg_savi := r.avg_savi }))

/-- The groupby key `['woreda_id', 'woreda_name', 'year', 'month']`. -/
def aggKey (r : AggRow) : String × String × Int × Int :=
  (r.woreda_id, r.woreda_name, r.year, r.month)

/-- The group of mapped rows sharing a key. -/
def groupOf (nameMap : String → Option String) (rows : List VIRow)
    (k : String × String × Int × Int) : List AggRow :=
  (mappedRows nameMap rows).filter (fun r => aggKey r = k)

/-- The single aggregated row produced for a key: per-column mean over the
key's group (pandas `groupby(...).mean()`). -/
def rowForKey (nameMap : String → Option String) (rows : List VIRow)
    (k : String × String × Int × Int) : AggRow :=
  { woreda_id := k.1, woreda_name := k.2.1, year := k.2.2.1,
    month := k.2.2.2,
    avg_ndvi := nanMean ((groupOf nameMap rows k).filterMap AggRow.avg_ndvi),
    avg_savi := nanMean ((groupOf nameMap rows k).filterMap AggRow.avg_savi) }

/-- The grouped means, `groupby([...]).mean().reset_index()`: one row per distinct key. -/
def aggregateUnsorted (nameMap : String → Option String)
    (rows : List VIRow) : List AggRow :=
  (((mappedRows nameMap rows).map aggKey).dedup).map (rowForKey nameMap rows)

/-- The order used by `sort_values(by=['woreda_id', 'year', 'month'])`. -/
def aggLE (a b : AggRow) : Prop :=
  a.woreda_id < b.woreda_id ∨
    (a.woreda_id = b.woreda_id ∧
      (a.year < b.year ∨ (a.year = b.year ∧ a.month ≤ b.month)))

instance : DecidableRel aggLE := fun a b => by
  unfold aggLE; infer_instance

/-- The full aggregator: mean-groupby then sort. -/
def aggregate (nameMap : String → Option String) (rows : List VIRow) :
    List AggRow :=
  List.insertionSort aggLE (aggregateUnsorted nameMap rows)

/-! ## Dataset Splitter / Imputer / Scaler (notebook 09, section 3) -/

/-- A row of `master_woreda_data.csv`: identifiers, the feature columns
(in the fixed `feature_cols` order), and the optional target
`annual_yield_quintals_ha`. -/
structure MRow where
  woreda_id : String
  woreda_name : String
  year : Int
  feats : List (Option ℚ)
  yieldVal : Option ℚ
  deriving DecidableEq

/-- Split rule `df_train = df_master.dropna(subset=['annual_yield_quintals_ha'])`:
the training population. -/
def dfTrain (master : List MRow) : List MRow :=
  master.filter (fun r => r.yieldVal.isSome)

/-- Split rule `df_2025 = df_master[df_master['year'] == 2025]`: the inference
population. -/
def df2025 (master : List MRow) : List MRow :=
  master.filter (fun r => r.year = 2025)

/-- Feature column `j` of a feature matrix (out-of-range reads as
missing). -/
def featCol (xs : List (List (Option ℚ))) (j : Nat) : List (Option ℚ) :=
  xs.map (fun r => r.getD j none)

/-- The fitted imputation means, one per feature column, computed from the
training feature matrix alone.  Mirrors the notebook loop: a column gets a
fill value only when `X[col].isnull().any()`; the fill value is
`X[col].mean()` (pandas mean over the non-missing training entries, `NaN`
when the column is entirely missing, in which case `fillna` is a no-op). -/
def imputeMeansF (n : Nat) (xs : List (List (Option ℚ))) :
    List (Option ℚ) :=
  (List.range n).map (fun j =>
    let col := featCol xs j
    if col.any (fun v => v.isNone) then nanMean (col.filterMap id)
    else none)

/-- Apply the per-column fill values to one row's features
(`fillna(mean_val)` where a fill value exists, identity otherwise). -/
def fillFeats (means fs : List (Option ℚ)) : List (Option ℚ) :=
  List.zipWith (fun m v => match v with | some x => some x | none => m)
    means fs

/-- The imputation means as fitted for a given master table. -/
def imputeMeans (n : Nat) (master : List MRow) : List (Option ℚ) :=
  imputeMeansF n ((dfTrain master).map MRow.feats)

/-- Output of the split-impute stage, plus the remaining-NaN warning flag
(`if X.isnull().sum().sum() > 0 or X_2025.isnull().sum().sum() > 0`). -/
structure PrepOut where
  xTrainImp : List (List (Option ℚ))
  xInfImp : List (List (Option ℚ))
  warned : Bool
  deriving DecidableEq

/-- The split-impute stage: split the master table, fit the imputation
means on the training population only, fill both populations with those
means, and record (only as a printed warning) whether missing values
remain. -/
def prepare (n : Nat) (master : List MRow) : PrepOut :=
  let means := imputeMeans n master
  let xT := (dfTrain master).map (fun r => fillFeats means r.feats)
  let xI := (df2025 master).map (fun r => fillFeats means r.feats)
  { xTrainImp := xT, xInfImp := xI,
    warned := (xT.any (fun row => row.any (fun v => v.isNone))) ||
      (xI.any (fun row => row.any (fun v => v.isNone))) }

/-- The non-missing values of column `j` of a feature matrix (what the
NaN-aware `StandardScaler` statistics are computed over). -/
def colVals (xs : List (List (Option ℚ))) (j : Nat) : List ℚ :=
  (featCol xs j).filterMap id

/-- Population variance of a list of rationals (`NaN` when empty).  The
scaler's `scale_` is the square root of this, so equal variances give
equal scales. -/
def varOpt (vs : List ℚ) : Option ℚ :=
  (nanMean vs).map (fun μ => ((vs.map (fun v => (v - μ) ^ 2)).sum) / vs.length)

/-- Fitted `StandardScaler().fit(X)` parameters per feature column: the mean and
the (squared-scale) variance, computed from the imputed training feature
matrix alone. -/
def scalerParamsF (n : Nat) (xs : List (List (Option ℚ))) :
    List (Option ℚ × Option ℚ) :=
  (List.range n).map (fun j => (nanMean (colVals xs j), varOpt (colVals xs j)))

/-- The scaler parameters as fitted for a given master table. -/
def scalerParams (n : Nat) (master : List MRow) :
    List (Option ℚ × Option ℚ) :=
  scalerParamsF n ((prepare n master).xTrainImp)

/-! ## Model Selection Engine (notebook 09, section 4)

The notebook iterates over the `models` dict in insertion order.  For each
variant it computes cross-validated fold scores via `cross_val_score`
(which fits clones of the estimator per fold and returns only scores),
averages them, appends to `results`, refits the estimator on the full
training data with `model.fit(X_scaled_df, y)`, and updates `best_model`
under the strict comparison `avg_rmse < best_rmse`.  There is no
`try`/`except` around any of this: an exception raised while scoring or
fitting one variant propagates and aborts the whole loop. -/

/-- Whether (and on what data) an estimator object has been fit.
`cross_val_score` fits clones, so fold fits never change this state. -/
inductive FitState where
  | unfit : FitState
  | fitOn (X : List (List ℚ)) (y : List ℚ) : FitState
  deriving DecidableEq

instance {ε α : Type} [DecidableEq ε] [DecidableEq α] :
    DecidableEq (Except ε α) := fun a b =>
  match a, b with
  | Except.error e1, Except.error e2 =>
    if h : e1 = e2 then isTrue (by rw [h])
    else isFalse (fun hc => h (Except.error.inj hc))
  | Except.ok v1, Except.ok v2 =>
    if h : v1 = v2 then isTrue (by rw [h])
    else isFalse (fun hc => h (Except.ok.inj hc))
  | Except.error _, Except.ok _ => isFalse (fun hc => Except.noConfusion hc)
  | Except.ok _, Except.error _ => isFalse (fun hc => Except.noConfusion hc)

/-- One catalog entry (`models` dict value) together with the outcome of
the library calls made for it: `cvRmse` is the per-fold RMSE list that
`np.sqrt(-cross_val_score(...))` returns, or the exception it raises;
`fitExc` is the exception `model.fit` raises, if any. -/
structure ModelObj where
  name : String
  cvRmse : Except String (List ℚ)
  fitExc : Option String
  state : FitState
  deriving DecidableEq

/-- Mean (`np.mean`) of the fold scores. -/
def qmean (vs : List ℚ) : ℚ := vs.sum / vs.length

/-- Refit `model.fit(X_scaled_df, y)`: fit on the entire training population. -/
def refit (m : ModelObj) (X : List (List ℚ)) (y : List ℚ) : ModelObj :=
  { m with state := FitState.fitOn X y }

/-- The update of `best_rmse`/`best_model`: strict `avg_rmse < best_rmse`,
with `best_rmse` initially `inf` (here: `none`). -/
def updateBest (best : Option (ℚ × ModelObj)) (avg : ℚ) (fitted : ModelObj) :
    Option (ℚ × ModelObj) :=
  match best with
  | none => some (avg, fitted)
  | some (br, bm) => if avg < br then some (avg, fitted) else some (br, bm)

/-- The body of the training loop, one variant at a time.  An exception in
`cross_val_score` or `model.fit` aborts the whole run (`.error`). -/
def trainLoopAux (X : List (List ℚ)) (y : List ℚ)
    (acc : List (String × ℚ)) (best : Option (ℚ × ModelObj)) :
    List ModelObj → Except String (List (String × ℚ) × Option (ℚ × ModelObj))
  | [] => Except.ok (acc, best)
  | m :: rest =>
    match m.cvRmse with
    | Except.error e => Except.error e
    | Except.ok scores =>
      match m.fitExc with
      | some e => Except.error e
      | none =>
        trainLoopAux X y (acc ++ [(m.name, qmean scores)])
          (updateBest best (qmean scores) (refit m X y)) rest

/-- The model training and selection loop over the catalog, in `models`
dict insertion order.  Returns the `results` rows (variant name, avg RMSE)
and the winning (best RMSE, refit model) pair, or the first exception. -/
def trainLoop (ms : List ModelObj) (X : List (List ℚ)) (y : List ℚ) :
    Except String (List (String × ℚ) × Option (ℚ × ModelObj)) :=
  trainLoopAux X y [] none ms

/-! ## Predictor (notebook 09, sections 4-5) -/

/-- A pandas DataFrame restricted to what column selection needs: an
ordered header and rows of numeric cells. -/
structure Table where
  header : List String
  rows : List (List ℚ)
  deriving DecidableEq

/-- The positions of the requested columns in the header, left to right;
`none` as soon as one is absent. -/
def colIdxs (header : List String) : List String → Option (List Nat)
  | [] => some []
  | c :: cs =>
    match header.findIdx? (fun h => h = c), colIdxs header cs with
    | some i, some is => some (i :: is)
    | _, _ => none

/-- pandas column selection `df[feature_cols]` (used for both
`X = df_train[feature_cols]` and `X_2025 = df_2025[feature_cols]`): raises
`KeyError` when a requested column is absent; otherwise returns the
columns in the *requested* order, whatever the table's own order was. -/
def selectCols (t : Table) (cs : List String) : Except String Table :=
  match colIdxs t.header cs with
  | none => Except.error "KeyError"
  | some idxs =>
    Except.ok { header := cs,
                rows := t.rows.map (fun r => idxs.map (fun i => r.getD i 0)) }

/-- Clamp `df_2025['predicted_yield_quintals_ha'].apply(lambda x: max(0, x))`. -/
def clampYield (x : ℚ) : ℚ := max 0 x

/-- One row of `sidama_coffee_yield_predictions_2025.csv`. -/
structure PredRow where
  woreda_id : String
  woreda_name : String
  year : Int
  predicted_yield_quintals_ha : ℚ
  deriving DecidableEq

/-- Section 5 of notebook 09: predict on every inference row and clamp
negatives to zero.  The model's `predict` is a library call treated
as a black box, passed in as a function of the (imputed) feature row. -/
def predictStage (predict : List (Option ℚ) → ℚ) (inf : List MRow)
    (xInf : List (List (Option ℚ))) : List PredRow :=
  List.zipWith (fun r x =>
    { woreda_id := r.woreda_id, woreda_name := r.woreda_name, year := r.year,
      predicted_yield_quintals_ha := clampYield (predict x) }) inf xInf

/-- The pipeline from the split-impute stage to the emitted predictions:
the notebook proceeds from the warning check straight to scaling, training
and prediction, unconditionally. -/
def runPipeline (n : Nat) (predict : List (Option ℚ) → ℚ)
    (master : List MRow) : PrepOut × List PredRow :=
  let p := prepare n master
  (p, predictStage predict (df2025 master) p.xInfImp)

/-! ## Auxiliary definitions used to state the claims -/

/-- The `results` entry the loop records for one variant: its name and its
average cross-validated RMSE (only defined when scoring succeeded). -/
def scoreOf (m : ModelObj) : String × ℚ :=
  (m.name, match m.cvRmse with
    | Except.ok s => qmean s
    | Except.error _ => 0)

/-- The selection rule as the spec states it: `nm` with score `br` is the
entry with the lowest score, and the earliest such entry in declaration
order (every strictly earlier entry has a strictly larger score). -/
def isFirstMin (res : List (String × ℚ)) (br : ℚ) (nm : String) : Prop :=
  (∀ p ∈ res, br ≤ p.2) ∧
    ∃ i, ∃ hi : i < res.length, res.get ⟨i, hi⟩ = (nm, br) ∧
      ∀ j, ∀ hj : j < res.length, j < i → br < (res.get ⟨j, hj⟩).2

/-- Modelled from the spec: notebook 08 (the Feature Consolidator) is not
under `src/`; per spec section 4.2 it joins the aggregated monthly series
into the master table by looking up each (unit, year, month) key in the
aggregated output.  An observation can reach a downstream table only
through this lookup. -/
def lookupAgg (agg : List AggRow) (u : String) (y mo : Int) :
    Option AggRow :=
  agg.find? (fun r => r.woreda_id == u && r.year == y && r.month == mo)

/-! Concrete inputs used by the witnesses and counterexamples. -/

/-- A reference boundary set knowing only woreda `"W1"`. -/
def wMap : String → Option String :=
  fun s => if s = "W1" then some "N1" else none

/-- Two observation rows duplicating the key (`"W1"`, 2024, 3). -/
def wDupRows : List VIRow :=
  [{ woreda_id := "W1", year := 2024, month := 3,
     avg_ndvi := some 1, avg_savi := some 2 },
   { woreda_id := "W1", year := 2024, month := 3,
     avg_ndvi := some 3, avg_savi := some 4 },
   { woreda_id := "W9", year := 2024, month := 3,
     avg_ndvi := some 9, avg_savi := some 9 }]

/-- A labelled (training) master row with a complete feature vector. -/
def wTrainRow : MRow :=
  { woreda_id := "W1", woreda_name := "N1", year := 2023,
    feats := [some 4], yieldVal := some 10 }

/-- An unlabelled 2025 master row whose only feature is missing. -/
def wInfRow : MRow :=
  { woreda_id := "W2", woreda_name := "N2", year := 2025,
    feats := [none], yieldVal := none }

/-- A labelled master row with a missing feature (forces imputation). -/
def wTrainRowMiss : MRow :=
  { woreda_id := "W3", woreda_name := "N3", year := 2022,
    feats := [none], yieldVal := some 8 }

/-- A 2025 master row with a present feature value. -/
def wInfRowFull : MRow :=
  { woreda_id := "W4", woreda_name := "N4", year := 2025,
    feats := [some 6], yieldVal := none }

/-- An alternative 2025 row with different feature values (for the
noninterference witness). -/
def wInfRowAlt : MRow :=
  { woreda_id := "W4", woreda_name := "N4", year := 2025,
    feats := [some 60], yieldVal := none }

/-- A catalog entry whose cross-validation succeeds. -/
def wModelA : ModelObj :=
  { name := "Random Forest", cvRmse := Except.ok [2, 2, 2, 2, 2],
    fitExc := none, state := FitState.unfit }

/-- A second succeeding entry with the same average RMSE as `wModelA`. -/
def wModelB : ModelObj :=
  { name := "XGBoost", cvRmse := Except.ok [1, 2, 2, 2, 3],
    fitExc := none, state := FitState.unfit }

/-- A succeeding entry with a strictly larger average RMSE. -/
def wModelC : ModelObj :=
  { name := "Ridge", cvRmse := Except.ok [3, 3, 3, 3, 3],
    fitExc := none, state := FitState.unfit }

/-- A catalog entry whose cross-validation raises a convergence error. -/
def wModelBad : ModelObj :=
  { name := "Lasso", cvRmse := Except.error "ConvergenceError",
    fitExc := none, state := FitState.unfit }

/-- An inference table whose physical column order (`b` before `a`)
differs from the persisted training order (`a` before `b`). -/
def wTable : Table := { header := ["b", "a"], rows := [[1, 2]] }

/-- The prediction row emitted for `wInfRow` when the raw model output is
negative: the clamp maps it to zero. -/
def wPredZero : PredRow :=
  { woreda_id := "W2", woreda_name := "N2", year := 2025,
    predicted_yield_quintals_ha := 0 }

/-- The constant raw predictor returning `-3` (a negative prediction). -/
def wNegPredict : List (Option ℚ) → ℚ := fun _ => -3

/-! ## Helper lemmas -/

/-- Every element of a `zipWith` comes from applying `f` at some common
index of the two input lists. -/
theorem exists_of_mem_zipWith {α β γ : Type} (f : α → β → γ) :
    ∀ (as : List α) (bs : List β) (c : γ), c ∈ List.zipWith f as bs →
      ∃ i, ∃ ha : i < as.length, ∃ hb : i < bs.length,
        c = f (as.get ⟨i, ha⟩) (bs.get ⟨i, hb⟩)
  | [], _, c, hc => by simp at hc
  | _ :: _, [], c, hc => by simp at hc
  | a :: as, b :: bs, c, hc => by
    rcases List.mem_cons.mp hc with h | h
    · exact ⟨0, Nat.succ_pos _, Nat.succ_pos _, h⟩
    · rcases exists_of_mem_zipWith f as bs c h with ⟨i, ha, hb, he⟩
      exact ⟨i + 1, Nat.succ_lt_succ ha, Nat.succ_lt_succ hb, he⟩

/-- Every emitted prediction row comes from some inference row and some
imputed feature row, with the clamp applied. -/
theorem exists_of_mem_predictStage (predict : List (Option ℚ) → ℚ)
    (inf : List MRow) (xInf : List (List (Option ℚ))) (p : PredRow)
    (hp : p ∈ predictStage predict inf xInf) :
    ∃ r ∈ inf, ∃ x ∈ xInf,
      p = { woreda_id := r.woreda_id, woreda_name := r.woreda_name,
            year := r.year,
            predicted_yield_quintals_ha := clampYield (predict x) } := by
  rcases exists_of_mem_zipWith _ inf xInf p hp with ⟨i, ha, hb, he⟩
  exact ⟨inf.get ⟨i, ha⟩, List.get_mem _ _ _, xInf.get ⟨i, hb⟩,
    List.get_mem _ _ _, he⟩

/-! ## C7: prediction non-negativity -/

/-- C7: every emitted `predicted_yield_quintals_ha` is non-negative, and
it equals the raw model prediction when that is non-negative and exactly
`0` when the raw prediction is negative. -/
theorem predicted_yield_nonneg (predict : List (Option ℚ) → ℚ)
    (inf : List MRow) (xInf : List (List (Option ℚ))) (p : PredRow)
    (hp : p ∈ predictStage predict inf xInf) :
    0 ≤ p.predicted_yield_quintals_ha ∧
      ∃ x ∈ xInf,
        (predict x < 0 → p.predicted_yield_quintals_ha = 0) ∧
          (0 ≤ predict x → p.predicted_yield_quintals_ha = predict x) := by
  rcases exists_of_mem_predictStage predict inf xInf p hp with
    ⟨r, _, x, hx, he⟩
  subst he
  refine ⟨le_max_left _ _, x, hx, ?_, ?_⟩
  · intro hneg
    simpa [clampYield] using max_eq_left hneg.le
  · intro hpos
    simpa [clampYield] using max_eq_right hpos

/-- Witness for C7 at a concrete negative raw prediction. -/
theorem predicted_yield_nonneg_witness :
    wPredZero ∈ predictStage wNegPredict [wInfRow] [[some 1]] ∧
      (0 ≤ wPredZero.predicted_yield_quintals_ha ∧
        ∃ x ∈ [[some (1 : ℚ)]],
          (wNegPredict x < 0 →
              wPredZero.predicted_yield_quintals_ha = 0) ∧
            (0 ≤ wNegPredict x →
              wPredZero.predicted_yield_quintals_ha = wNegPredict x)) :=
  ⟨by decide, predicted_yield_nonneg wNegPredict [wInfRow]
    [[some 1]] wPredZero (by decide)⟩

/-! ## C1: no-leakage noninterference -/

/-- C1: the fitted imputation means and scaler parameters are functions of
the training population's feature values alone — two master tables with
identical training-population feature matrices (however much their
2025/inference rows differ) yield identical fitted statistics. -/
theorem no_leakage_noninterference (n : Nat) (m1 m2 : List MRow)
    (h : (dfTrain m1).map MRow.feats = (dfTrain m2).map MRow.feats) :
    imputeMeans n m1 = imputeMeans n m2 ∧
      scalerParams n m1 = scalerParams n m2 := by
  have h1 : imputeMeans n m1 = imputeMeans n m2 := by
    unfold imputeMeans
    rw [h]
  have key : ∀ m : List MRow, (prepare n m).xTrainImp =
      ((dfTrain m).map MRow.feats).map (fillFeats (imputeMeans n m)) := by
    intro m
    show (dfTrain m).map (fun r => fillFeats (imputeMeans n m) r.feats) = _
    rw [List.map_map]
    rfl
  have h2 : (prepare n m1).xTrainImp = (prepare n m2).xTrainImp := by
    rw [key m1, key m2, h, h1]
  exact ⟨h1, by unfold scalerParams; rw [h2]⟩

/-- Witness for C1: same single training row, different 2025 rows. -/
theorem no_leakage_noninterference_witness :
    (dfTrain [wTrainRow, wInfRowFull]).map MRow.feats =
        (dfTrain [wTrainRow, wInfRowAlt]).map MRow.feats ∧
      (imputeMeans 1 [wTrainRow, wInfRowFull] =
          imputeMeans 1 [wTrainRow, wInfRowAlt] ∧
        scalerParams 1 [wTrainRow, wInfRowFull] =
          scalerParams 1 [wTrainRow, wInfRowAlt]) :=
  ⟨by decide, no_leakage_noninterference 1 _ _ (by decide)⟩

/-! ## C9 and C3: aggregator properties -/

/-- Every row of the aggregated output carries a `woreda_id` that the
reference boundary set maps to exactly its `woreda_name`. -/
theorem mapped_of_mem_aggregate {nameMap : String → Option String}
    {rows : List VIRow} {r : AggRow} (hr : r ∈ aggregate nameMap rows) :
    nameMap r.woreda_id = some r.woreda_name := by
  have hr1 : r ∈ aggregateUnsorted nameMap rows :=
    ((List.perm_insertionSort aggLE _).mem_iff).mp hr
  rcases List.mem_map.mp hr1 with ⟨k, hk, rfl⟩
  have hk2 : k ∈ (mappedRows nameMap rows).map aggKey := List.mem_dedup.mp hk
  rcases List.mem_map.mp hk2 with ⟨a, ha, hak⟩
  rcases List.mem_filterMap.mp ha with ⟨v, _, hva⟩
  rcases Option.map_eq_some'.mp hva with ⟨nm, hnm, hmk⟩
  subst hmk
  subst hak
  simpa [rowForKey, aggKey] using hnm

/-- C9: an observation whose `woreda_id` is not in the reference boundary
set appears in no aggregated row, and no downstream lookup of that unit in
the aggregated output can succeed. -/
theorem unmappable_unit_excluded (nameMap : String → Option String)
    (rows : List VIRow) (u : String) (hu : nameMap u = none) :
    (∀ r ∈ aggregate nameMap rows, r.woreda_id ≠ u) ∧
      ∀ y mo, lookupAgg (aggregate nameMap rows) u y mo = none := by
  have h1 : ∀ r ∈ aggregate nameMap rows, r.woreda_id ≠ u := by
    intro r hr he
    have h2 := mapped_of_mem_aggregate hr
    rw [he, hu] at h2
    exact Option.noConfusion h2
  refine ⟨h1, ?_⟩
  intro y mo
  apply List.find?_eq_none.mpr
  intro r hr hp
  simp only [Bool.and_eq_true, beq_iff_eq] at hp
  exact h1 r hr hp.1.1

/-- Witness for C9: woreda `"W9"` is not in `wMap`'s boundary set. -/
theorem unmappable_unit_excluded_witness :
    wMap "W9" = none ∧
      ((∀ r ∈ aggregate wMap wDupRows, r.woreda_id ≠ "W9") ∧
        ∀ y mo, lookupAgg (aggregate wMap wDupRows) "W9" y mo = none) :=
  ⟨by decide, unmappable_unit_excluded wMap wDupRows "W9" (by decide)⟩

/-- In a duplicate-free list, filtering for one known element yields
exactly that element. -/
theorem filter_eq_singleton_of_nodup {α : Type} [DecidableEq α] :
    ∀ (l : List α) (k : α), l.Nodup → k ∈ l →
      l.filter (fun x => x = k) = [k]
  | [], k, _, hm => absurd hm (List.not_mem_nil k)
  | a :: l, k, hnd, hm => by
    rcases List.nodup_cons.mp hnd with ⟨hna, hndl⟩
    by_cases hak : a = k
    · subst hak
      have hnil : l.filter (fun x => x = a) = [] := by
        apply List.filter_eq_nil_iff.mpr
        intro b hb
        simp only [decide_eq_true_eq]
        exact fun he => hna (he ▸ hb)
      simp [List.filter_cons, hnil]
    · have hm' : k ∈ l := by
        rcases List.mem_cons.mp hm with h | h
        · exact absurd h.symm hak
        · exact h
      have hrec := filter_eq_singleton_of_nodup l k hndl hm'
      simp [List.filter_cons, hak, hrec]

/-- Mean of a non-empty list of values. -/
theorem nanMean_of_ne_nil {vs : List ℚ} (h : vs ≠ []) :
    nanMean vs = some (vs.sum / vs.length) := by
  cases vs with
  | nil => exact absurd rfl h
  | cons a t => rfl

/-- C3: when several mapped observation rows share one
(unit, name, year, month) key, the aggregated output contains exactly one
row for that key, and its variable values are the arithmetic means (over
the present values) of the duplicates — never their sum and never one
picked row. -/
theorem duplicates_averaged (nameMap : String → Option String)
    (rows : List VIRow) (k : String × String × Int × Int)
    (h2 : 2 ≤ (groupOf nameMap rows k).length) :
    (aggregate nameMap rows).filter (fun r => aggKey r = k)
        = [rowForKey nameMap rows k] ∧
      (∀ vs : List ℚ,
        (groupOf nameMap rows k).filterMap AggRow.avg_ndvi = vs → vs ≠ [] →
          (rowForKey nameMap rows k).avg_ndvi = some (vs.sum / vs.length)) ∧
      ∀ vs : List ℚ,
        (groupOf nameMap rows k).filterMap AggRow.avg_savi = vs → vs ≠ [] →
          (rowForKey nameMap rows k).avg_savi = some (vs.sum / vs.length) := by
  have hne : groupOf nameMap rows k ≠ [] := by
    intro h0
    rw [h0] at h2
    exact absurd h2 (by decide)
  obtain ⟨a, ha⟩ := List.exists_mem_of_ne_nil _ hne
  have haMem : a ∈ mappedRows nameMap rows := (List.mem_filter.mp ha).1
  have haKey : aggKey a = k := by
    have h3 := (List.mem_filter.mp ha).2
    simpa using h3
  have hk : k ∈ ((mappedRows nameMap rows).map aggKey).dedup :=
    List.mem_dedup.mpr (List.mem_map.mpr ⟨a, haMem, haKey⟩)
  have hunsort : (aggregateUnsorted nameMap rows).filter
      (fun r => aggKey r = k) = [rowForKey nameMap rows k] := by
    unfold aggregateUnsorted
    rw [List.filter_map]
    have hsing := filter_eq_singleton_of_nodup
      (((mappedRows nameMap rows).map aggKey).dedup) k
      (List.nodup_dedup _) hk
    show List.map (rowForKey nameMap rows)
      (List.filter (fun x => x = k)
        (((mappedRows nameMap rows).map aggKey).dedup)) = _
    rw [hsing]
    rfl
  have hperm : List.Perm
      ((aggregate nameMap rows).filter (fun r => aggKey r = k))
      [rowForKey nameMap rows k] := by
    rw [← hunsort]
    exact (List.perm_insertionSort aggLE _).filter _
  refine ⟨List.perm_singleton.mp hperm, ?_, ?_⟩
  · intro vs hvs hvne
    show nanMean _ = _
    rw [hvs]
    exact nanMean_of_ne_nil hvne
  · intro vs hvs hvne
    show nanMean _ = _
    rw [hvs]
    exact nanMean_of_ne_nil hvne

/-- Witness for C3: two duplicate rows for (`"W1"`, `"N1"`, 2024, 3). -/
theorem duplicates_averaged_witness :
    2 ≤ (groupOf wMap wDupRows ("W1", "N1", 2024, 3)).length ∧
      ((aggregate wMap wDupRows).filter
          (fun r => aggKey r = ("W1", "N1", 2024, 3))
            = [rowForKey wMap wDupRows ("W1", "N1", 2024, 3)] ∧
        (∀ vs : List ℚ,
          (groupOf wMap wDupRows ("W1", "N1", 2024, 3)).filterMap
              AggRow.avg_ndvi = vs → vs ≠ [] →
            (rowForKey wMap wDupRows ("W1", "N1", 2024, 3)).avg_ndvi
              = some (vs.sum / vs.length)) ∧
        ∀ vs : List ℚ,
          (groupOf wMap wDupRows ("W1", "N1", 2024, 3)).filterMap
              AggRow.avg_savi = vs → vs ≠ [] →
            (rowForKey wMap wDupRows ("W1", "N1", 2024, 3)).avg_savi
              = some (vs.sum / vs.length)) :=
  ⟨by decide, duplicates_averaged wMap wDupRows ("W1", "N1", 2024, 3)
    (by decide)⟩

/-! ## C2, C8, C5: the model training and selection loop -/

/-- Loop invariant: whenever the loop finishes successfully with a winner,
the winner's (name, RMSE) pair is the first minimum of the `results`
list. -/
theorem trainLoopAux_firstMin (X : List (List ℚ)) (y : List ℚ) :
    ∀ (ms : List ModelObj) (acc : List (String × ℚ))
      (best : Option (ℚ × ModelObj)),
      (match best with
        | none => acc = []
        | some (br0, bm0) => isFirstMin acc br0 bm0.name) →
      ∀ (res : List (String × ℚ)) (br : ℚ) (bm : ModelObj),
        trainLoopAux X y acc best ms = Except.ok (res, some (br, bm)) →
        isFirstMin res br bm.name
  | [], acc, best, hinv, res, br, bm, h => by
    simp only [trainLoopAux] at h
    obtain ⟨h1, h2⟩ := Prod.mk.injEq _ _ _ _ ▸ Except.ok.inj h
    subst h1
    subst h2
    exact hinv
  | m :: rest, acc, best, hinv, res, br, bm, h => by
    rw [trainLoopAux] at h
    cases hcv : m.cvRmse with
    | error e => rw [hcv] at h; exact Except.noConfusion h
    | ok scores =>
      rw [hcv] at h
      cases hfe : m.fitExc with
      | some e => rw [hfe] at h; exact Except.noConfusion h
      | none =>
        rw [hfe] at h
        refine trainLoopAux_firstMin X y rest
          (acc ++ [(m.name, qmean scores)])
          (updateBest best (qmean scores) (refit m X y)) ?_ res br bm h
        cases best with
        | none =>
          have hacc : acc = [] := hinv
          subst hacc
          refine ⟨?_, 0, by simp [updateBest], by simp [updateBest, refit], ?_⟩
          · intro p hp
            simp only [List.nil_append, List.mem_singleton] at hp
            subst hp
            exact le_refl _
          · intro j hj hj0
            exact absurd hj0 (Nat.not_lt_zero j)
        | some b =>
          obtain ⟨br0, bm0⟩ := b
          obtain ⟨hall, i, hi, hget, hfirst⟩ := hinv
          by_cases hlt : qmean scores < br0
          · simp only [updateBest, if_pos hlt]
            refine ⟨?_, acc.length, ?_, ?_, ?_⟩
            · intro p hp
              rcases List.mem_append.mp hp with hp | hp
              · exact le_of_lt (lt_of_lt_of_le hlt (hall p hp))
              · rw [List.mem_singleton.mp hp]
            · simp
            · simp only [List.get_eq_getElem]
              exact List.getElem_concat_length _ _ _ rfl _
            · intro j hj hjlt
              have hj' : j < acc.length := hjlt
              have hgj : (acc ++ [(m.name, qmean scores)]).get ⟨j, hj⟩
                  = acc.get ⟨j, hj'⟩ := by
                simp only [List.get_eq_getElem]
                exact List.getElem_append_left hj'
              rw [hgj]
              exact lt_of_lt_of_le hlt (hall _ (List.get_mem _ _ _))
          · simp only [updateBest, if_neg hlt]
            refine ⟨?_, i, ?_, ?_, ?_⟩
            · intro p hp
              rcases List.mem_append.mp hp with hp | hp
              · exact hall p hp
              · rw [List.mem_singleton.mp hp]
                exact le_of_not_lt hlt
            · exact lt_of_lt_of_le hi (by simp)
            · have hgi : (acc ++ [(m.name, qmean scores)]).get
                  ⟨i, lt_of_lt_of_le hi (by simp)⟩ = acc.get ⟨i, hi⟩ := by
                simp only [List.get_eq_getElem]
                exact List.getElem_append_left hi
              rw [hgi, hget]
            · intro j hj hjlt
              have hj' : j < acc.length := lt_trans hjlt hi
              have hgj : (acc ++ [(m.name, qmean scores)]).get ⟨j, hj⟩
                  = acc.get ⟨j, hj'⟩ := by
                simp only [List.get_eq_getElem]
                exact List.getElem_append_left hj'
              rw [hgj]
              exact hfirst j hj' hjlt

/-- Loop invariant: a successful run records one `results` entry per
catalog variant, in catalog order, holding the variant's name and its
average cross-validated RMSE. -/
theorem trainLoopAux_results (X : List (List ℚ)) (y : List ℚ) :
    ∀ (ms : List ModelObj) (acc : List (String × ℚ))
      (best : Option (ℚ × ModelObj)) (res : List (String × ℚ))
      (fin : Option (ℚ × ModelObj)),
      trainLoopAux X y acc best ms = Except.ok (res, fin) →
      res = acc ++ ms.map scoreOf
  | [], acc, best, res, fin, h => by
    simp only [trainLoopAux] at h
    obtain ⟨h1, _⟩ := Prod.mk.injEq _ _ _ _ ▸ Except.ok.inj h
    simp [← h1]
  | m :: rest, acc, best, res, fin, h => by
    rw [trainLoopAux] at h
    cases hcv : m.cvRmse with
    | error e => rw [hcv] at h; exact Except.noConfusion h
    | ok scores =>
      rw [hcv] at h
      cases hfe : m.fitExc with
      | some e => rw [hfe] at h; exact Except.noConfusion h
      | none =>
        rw [hfe] at h
        have hres := trainLoopAux_results X y rest
          (acc ++ [(m.name, qmean scores)])
          (updateBest best (qmean scores) (refit m X y)) res fin h
        rw [hres, List.map_cons, List.append_assoc]
        simp [scoreOf, hcv]

/-- C2: when the training loop completes with a winner, the `results`
table lists every catalog variant in declaration order with its mean
cross-validated RMSE, the winner's RMSE is the minimum of that table, and
the winner is the earliest variant attaining it (a tie is broken in favour
of the variant declared earlier in the `models` dict). -/
theorem model_selection_rule (ms : List ModelObj) (X : List (List ℚ))
    (y : List ℚ) (res : List (String × ℚ)) (br : ℚ) (bm : ModelObj)
    (h : trainLoop ms X y = Except.ok (res, some (br, bm))) :
    res = ms.map scoreOf ∧
      (∀ p ∈ res, br ≤ p.2) ∧
        ∃ i, ∃ hi : i < res.length, res.get ⟨i, hi⟩ = (bm.name, br) ∧
          ∀ j, ∀ hj : j < res.length, j < i →
            br < (res.get ⟨j, hj⟩).2 := by
  have h1 := trainLoopAux_results X y ms [] none res (some (br, bm)) h
  have h2 := trainLoopAux_firstMin X y ms [] none rfl res br bm h
  exact ⟨by simpa using h1, h2⟩

/-- Witness for C2: a catalog with a tied minimum — the variant declared
earlier (`wModelA`) wins over the equally scored `wModelB`. -/
theorem model_selection_rule_witness :
    trainLoop [wModelA, wModelB, wModelC] [[1]] [1]
        = Except.ok ([("Random Forest", 2), ("XGBoost", 2), ("Ridge", 3)],
            some (2, refit wModelA [[1]] [1])) ∧
      ([("Random Forest", (2 : ℚ)), ("XGBoost", 2), ("Ridge", 3)]
          = [wModelA, wModelB, wModelC].map scoreOf ∧
        (∀ p ∈ [("Random Forest", (2 : ℚ)), ("XGBoost", 2), ("Ridge", 3)],
            (2 : ℚ) ≤ p.2) ∧
          ∃ i, ∃ hi : i <
              [("Random Forest", (2 : ℚ)), ("XGBoost", 2), ("Ridge", 3)].length,
            [("Random Forest", (2 : ℚ)), ("XGBoost", 2), ("Ridge", 3)].get
                ⟨i, hi⟩ = ((refit wModelA [[1]] [1]).name, 2) ∧
              ∀ j, ∀ hj : j <
                  [("Random Forest", (2 : ℚ)), ("XGBoost", 2),
                    ("Ridge", 3)].length,
                j < i →
                  (2 : ℚ) <
                    ([("Random Forest", (2 : ℚ)), ("XGBoost", 2),
                      ("Ridge", 3)].get ⟨j, hj⟩).2) := by
  have hqA : qmean [2, 2, 2, 2, 2] = 2 := by simp [qmean]; norm_num
  have hqB : qmean [1, 2, 2, 2, 3] = 2 := by simp [qmean]; norm_num
  have hqC : qmean [3, 3, 3, 3, 3] = 3 := by simp [qmean]; norm_num
  have hrun : trainLoop [wModelA, wModelB, wModelC] [[1]] [1]
      = Except.ok ([("Random Forest", 2), ("XGBoost", 2), ("Ridge", 3)],
          some (2, refit wModelA [[1]] [1])) := by
    simp [trainLoop, trainLoopAux, wModelA, wModelB, wModelC,
      updateBest, hqA, hqB, hqC]
    norm_num
  exact ⟨hrun, model_selection_rule [wModelA, wModelB, wModelC] [[1]] [1]
    _ _ _ hrun⟩

/-- Loop invariant: a successful winner is either the inherited best or a
catalog variant refit on the full training data. -/
theorem trainLoopAux_refit (X : List (List ℚ)) (y : List ℚ) :
    ∀ (ms : List ModelObj) (acc : List (String × ℚ))
      (best : Option (ℚ × ModelObj)) (res : List (String × ℚ)) (br : ℚ)
      (bm : ModelObj),
      trainLoopAux X y acc best ms = Except.ok (res, some (br, bm)) →
      best = some (br, bm) ∨ ∃ m ∈ ms, bm = refit m X y
  | [], acc, best, res, br, bm, h => by
    simp only [trainLoopAux] at h
    obtain ⟨_, h2⟩ := Prod.mk.injEq _ _ _ _ ▸ Except.ok.inj h
    exact Or.inl h2
  | m :: rest, acc, best, res, br, bm, h => by
    rw [trainLoopAux] at h
    cases hcv : m.cvRmse with
    | error e => rw [hcv] at h; exact Except.noConfusion h
    | ok scores =>
      rw [hcv] at h
      cases hfe : m.fitExc with
      | some e => rw [hfe] at h; exact Except.noConfusion h
      | none =>
        rw [hfe] at h
        rcases trainLoopAux_refit X y rest _ _ res br bm h with h0 | hm
        · cases best with
          | none =>
            simp only [updateBest] at h0
            obtain ⟨_, h2⟩ := Prod.mk.injEq _ _ _ _ ▸ Option.some.inj h0
            exact Or.inr ⟨m, List.mem_cons_self m rest, h2.symm⟩
          | some b =>
            obtain ⟨br0, bm0⟩ := b
            simp only [updateBest] at h0
            by_cases hlt : qmean scores < br0
            · rw [if_pos hlt] at h0
              obtain ⟨_, h2⟩ := Prod.mk.injEq _ _ _ _ ▸ Option.some.inj h0
              exact Or.inr ⟨m, List.mem_cons_self m rest, h2.symm⟩
            · rw [if_neg hlt] at h0
              obtain ⟨h1, h2⟩ := Prod.mk.injEq _ _ _ _ ▸ Option.some.inj h0
              exact Or.inl (by rw [h1, h2])
        · obtain ⟨m', hm', he⟩ := hm
          exact Or.inr ⟨m', List.mem_cons_of_mem m hm', he⟩

/-- C8: the winning model retained by the loop is a catalog variant refit
on the entire training population (`model.fit(X_scaled_df, y)`), never a
per-fold model — its fit state records exactly the full training data. -/
theorem winner_refit_on_full_data (ms : List ModelObj) (X : List (List ℚ))
    (y : List ℚ) (res : List (String × ℚ)) (br : ℚ) (bm : ModelObj)
    (h : trainLoop ms X y = Except.ok (res, some (br, bm))) :
    (∃ m ∈ ms, bm = refit m X y) ∧ bm.state = FitState.fitOn X y := by
  rcases trainLoopAux_refit X y ms [] none res br bm h with h0 | hm
  · exact Option.noConfusion h0
  · obtain ⟨m, hmem, he⟩ := hm
    subst he
    exact ⟨⟨m, hmem, rfl⟩, rfl⟩

/-- Witness for C8 on a concrete successful run. -/
theorem winner_refit_on_full_data_witness :
    trainLoop [wModelA, wModelB, wModelC] [[1]] [1]
        = Except.ok ([("Random Forest", 2), ("XGBoost", 2), ("Ridge", 3)],
            some (2, refit wModelA [[1]] [1])) ∧
      ((∃ m ∈ [wModelA, wModelB, wModelC],
          refit wModelA [[1]] [1] = refit m [[1]] [1]) ∧
        (refit wModelA [[1]] [1]).state = FitState.fitOn [[1]] [1]) := by
  have hqA : qmean [2, 2, 2, 2, 2] = 2 := by simp [qmean]; norm_num
  have hqB : qmean [1, 2, 2, 2, 3] = 2 := by simp [qmean]; norm_num
  have hqC : qmean [3, 3, 3, 3, 3] = 3 := by simp [qmean]; norm_num
  have hrun : trainLoop [wModelA, wModelB, wModelC] [[1]] [1]
      = Except.ok ([("Random Forest", 2), ("XGBoost", 2), ("Ridge", 3)],
          some (2, refit wModelA [[1]] [1])) := by
    simp [trainLoop, trainLoopAux, wModelA, wModelB, wModelC,
      updateBest, hqA, hqB, hqC]
    norm_num
  exact ⟨hrun, winner_refit_on_full_data [wModelA, wModelB, wModelC]
    [[1]] [1] _ _ _ hrun⟩

/-- An exception while processing any variant makes the whole loop return
that exception, whatever was accumulated before. -/
theorem trainLoopAux_error (X : List (List ℚ)) (y : List ℚ) (e : String)
    (bad : ModelObj) (post : List ModelObj)
    (hbad : bad.cvRmse = Except.error e ∨
      (∃ s, bad.cvRmse = Except.ok s) ∧ bad.fitExc = some e) :
    ∀ (pre : List ModelObj) (acc : List (String × ℚ))
      (best : Option (ℚ × ModelObj)),
      (∀ m ∈ pre, (∃ s, m.cvRmse = Except.ok s) ∧ m.fitExc = none) →
      trainLoopAux X y acc best (pre ++ bad :: post) = Except.error e
  | [], acc, best, _ => by
    rw [List.nil_append, trainLoopAux]
    rcases hbad with hc | ⟨⟨s, hs⟩, hf⟩
    · rw [hc]
    · rw [hs, hf]
  | m :: pre, acc, best, hok => by
    rw [List.cons_append, trainLoopAux]
    obtain ⟨⟨s, hs⟩, hf⟩ := hok m (List.mem_cons_self m pre)
    rw [hs, hf]
    exact trainLoopAux_error X y e bad post hbad pre _ _
      (fun m' hm' => hok m' (List.mem_cons_of_mem m hm'))

/-- C5 counterexample: with a catalog whose second variant raises a
convergence error, the whole run aborts with that error — no ranking is
produced and no winner is selected, contradicting the claimed per-variant
failure isolation. -/
theorem variant_failure_counterexample :
    trainLoop [wModelA, wModelBad, wModelC] [[1]] [1]
        = Except.error "ConvergenceError" ∧
      ∀ res fin, trainLoop [wModelA, wModelBad, wModelC] [[1]] [1]
          ≠ Except.ok (res, fin) := by
  have h1 : trainLoop [wModelA, wModelBad, wModelC] [[1]] [1]
      = Except.error "ConvergenceError" := by decide
  exact ⟨h1, fun res fin hc => by rw [h1] at hc; exact Except.noConfusion hc⟩

/-- C5 amended: the loop has no per-variant exception handling — if every
variant before some failing variant succeeds, the run returns the failing
variant's error and nothing else. -/
theorem variant_failure_aborts_run (X : List (List ℚ)) (y : List ℚ)
    (pre : List ModelObj) (bad : ModelObj) (post : List ModelObj)
    (e : String)
    (hok : ∀ m ∈ pre, (∃ s, m.cvRmse = Except.ok s) ∧ m.fitExc = none)
    (hbad : bad.cvRmse = Except.error e ∨
      (∃ s, bad.cvRmse = Except.ok s) ∧ bad.fitExc = some e) :
    trainLoop (pre ++ bad :: post) X y = Except.error e :=
  trainLoopAux_error X y e bad post hbad pre [] none hok

/-- Witness for the amended C5 at the concrete failing catalog. -/
theorem variant_failure_aborts_run_witness :
    (∀ m ∈ [wModelA], (∃ s, m.cvRmse = Except.ok s) ∧ m.fitExc = none) ∧
      (wModelBad.cvRmse = Except.error "ConvergenceError" ∨
        (∃ s, wModelBad.cvRmse = Except.ok s) ∧
          wModelBad.fitExc = some "ConvergenceError") ∧
      trainLoop ([wModelA] ++ wModelBad :: [wModelC]) [[1]] [1]
        = Except.error "ConvergenceError" := by
  have hok : ∀ m ∈ [wModelA],
      (∃ s, m.cvRmse = Except.ok s) ∧ m.fitExc = none := by
    intro m hm
    rw [List.mem_singleton.mp hm]
    exact ⟨⟨[2, 2, 2, 2, 2], rfl⟩, rfl⟩
  exact ⟨hok, Or.inl rfl,
    variant_failure_aborts_run [[1]] [1] [wModelA] wModelBad [wModelC]
      "ConvergenceError" hok (Or.inl rfl)⟩

/-! ## C4 and C10: the imputation postcondition and warning -/

/-- The fitted means list has one entry per feature column. -/
theorem imputeMeans_length (n : Nat) (master : List MRow) :
    (imputeMeans n master).length = n := by
  simp [imputeMeans, imputeMeansF]

/-- Entry `j` of the fitted means: the notebook's `mean_val` for column
`j` when that column has a missing training value, `none` otherwise. -/
theorem imputeMeans_getElem (n : Nat) (master : List MRow) (j : Nat)
    (hj : j < (imputeMeans n master).length) :
    (imputeMeans n master)[j] =
      (if (featCol ((dfTrain master).map MRow.feats) j).any
          (fun v => v.isNone) then
        nanMean ((featCol ((dfTrain master).map MRow.feats) j).filterMap id)
      else none) := by
  have hj' : j < n := by rw [imputeMeans_length] at hj; exact hj
  simp [imputeMeans, imputeMeansF]

/-- The mean over a column containing at least one present value is a
present value. -/
theorem nanMean_isSome_of_mem_some {col : List (Option ℚ)} {x : ℚ}
    (hx : some x ∈ col) : (nanMean (col.filterMap id)).isSome := by
  have hmem : x ∈ col.filterMap id :=
    List.mem_filterMap.mpr ⟨some x, hx, rfl⟩
  have hne : col.filterMap id ≠ [] := by
    intro h0
    rw [h0] at hmem
    exact (List.not_mem_nil x) hmem
  rw [nanMean_of_ne_nil hne]
  rfl

/-- C4 counterexample: a feature column (`wInfRow`'s only feature) whose
missing value occurs solely in the inference population is left missing by
the imputer; the remaining-NaN check sets only the warning flag, and the
pipeline still emits a prediction for that row instead of halting. -/
theorem imputation_not_fatal_counterexample :
    (prepare 1 [wTrainRow, wInfRow]).xInfImp = [[none]] ∧
      (prepare 1 [wTrainRow, wInfRow]).warned = true ∧
      (runPipeline 1 (fun _ => (5 : ℚ)) [wTrainRow, wInfRow]).2
        = [{ woreda_id := "W2", woreda_name := "N2", year := 2025,
             predicted_yield_quintals_ha := 5 }] := by
  refine ⟨by decide, by decide, ?_⟩
  have hc : clampYield 5 = 5 := by
    simp [clampYield]
  simp [runPipeline, predictStage, prepare, imputeMeans, imputeMeansF,
    featCol, fillFeats, dfTrain, df2025, wTrainRow, wInfRow, hc]

/-- C4 amended: provided every feature column has at least one present
training value, the training population is fully imputed; missing values
are reported only through the warning flag; and the pipeline always
proceeds to emit one prediction per inference row (it never halts on
remaining missing values). -/
theorem imputation_postcondition_amended (n : Nat) (master : List MRow)
    (predict : List (Option ℚ) → ℚ)
    (hpresent : ∀ j, j < n →
      ∃ v ∈ featCol ((dfTrain master).map MRow.feats) j, v.isSome) :
    (∀ row ∈ (prepare n master).xTrainImp, ∀ v ∈ row, v.isSome) ∧
      ((prepare n master).warned = true ↔
        (∃ row ∈ (prepare n master).xTrainImp, ∃ v ∈ row, v = none) ∨
          ∃ row ∈ (prepare n master).xInfImp, ∃ v ∈ row, v = none) ∧
      (runPipeline n predict master).2.length = (df2025 master).length := by
  refine ⟨?_, ?_, ?_⟩
  · intro row hrow v hv
    have hrow' : row ∈ (dfTrain master).map
        (fun r => fillFeats (imputeMeans n master) r.feats) := hrow
    rcases List.mem_map.mp hrow' with ⟨r, hr, hre⟩
    subst hre
    rcases exists_of_mem_zipWith _ _ _ v hv with ⟨i, him, hif, hve⟩
    have hin : i < n := by
      have := him
      rw [imputeMeans_length] at this
      exact this
    subst hve
    cases hfi : r.feats.get ⟨i, hif⟩ with
    | some x => rfl
    | none =>
      show ((imputeMeans n master).get ⟨i, him⟩).isSome
      have hgm : (imputeMeans n master).get ⟨i, him⟩ =
          (imputeMeans n master)[i] := rfl
      rw [hgm, imputeMeans_getElem n master i him]
      have hcolmem : (none : Option ℚ) ∈
          featCol ((dfTrain master).map MRow.feats) i := by
        have h1 : r.feats ∈ (dfTrain master).map MRow.feats :=
          List.mem_map.mpr ⟨r, hr, rfl⟩
        have h2 : r.feats.getD i none = none := by
          rw [List.getD_eq_getElem _ _ hif]
          rw [← hfi]
          rfl
        exact h2 ▸ List.mem_map.mpr ⟨r.feats, h1, rfl⟩
      have hany : (featCol ((dfTrain master).map MRow.feats) i).any
          (fun v => v.isNone) = true :=
        List.any_eq_true.mpr ⟨none, hcolmem, rfl⟩
      rw [if_pos hany]
      obtain ⟨v0, hv0, hv0s⟩ := hpresent i hin
      obtain ⟨x0, hx0⟩ := Option.isSome_iff_exists.mp hv0s
      exact nanMean_isSome_of_mem_some (hx0 ▸ hv0)
  · show ((_ : Bool) || _) = true ↔ _
    rw [Bool.or_eq_true]
    constructor
    · intro h
      rcases h with h | h
      · refine Or.inl ?_
        obtain ⟨row, hrow, hvrow⟩ := List.any_eq_true.mp h
        obtain ⟨v, hv, hvn⟩ := List.any_eq_true.mp hvrow
        exact ⟨row, hrow, v, hv, Option.isNone_iff_eq_none.mp hvn⟩
      · refine Or.inr ?_
        obtain ⟨row, hrow, hvrow⟩ := List.any_eq_true.mp h
        obtain ⟨v, hv, hvn⟩ := List.any_eq_true.mp hvrow
        exact ⟨row, hrow, v, hv, Option.isNone_iff_eq_none.mp hvn⟩
    · intro h
      rcases h with ⟨row, hrow, v, hv, hvn⟩ | ⟨row, hrow, v, hv, hvn⟩
      · exact Or.inl (List.any_eq_true.mpr ⟨row, hrow,
          List.any_eq_true.mpr ⟨v, hv, by rw [hvn]; rfl⟩⟩)
      · exact Or.inr (List.any_eq_true.mpr ⟨row, hrow,
          List.any_eq_true.mpr ⟨v, hv, by rw [hvn]; rfl⟩⟩)
  · show (List.zipWith _ (df2025 master)
        ((df2025 master).map (fun r => fillFeats _ r.feats))).length = _
    rw [List.length_zipWith, List.length_map, min_self]

/-- Witness for the amended C4: a training column with one missing and
one present value is filled with the training mean in both populations. -/
theorem imputation_postcondition_amended_witness :
    (∀ j, j < 1 →
      ∃ v ∈ featCol ((dfTrain [wTrainRow, wTrainRowMiss, wInfRow]).map
        MRow.feats) j, v.isSome) ∧
      ((∀ row ∈ (prepare 1 [wTrainRow, wTrainRowMiss, wInfRow]).xTrainImp,
          ∀ v ∈ row, v.isSome) ∧
        ((prepare 1 [wTrainRow, wTrainRowMiss, wInfRow]).warned = true ↔
          (∃ row ∈ (prepare 1 [wTrainRow, wTrainRowMiss, wInfRow]).xTrainImp,
            ∃ v ∈ row, v = none) ∨
            ∃ row ∈ (prepare 1 [wTrainRow, wTrainRowMiss, wInfRow]).xInfImp,
              ∃ v ∈ row, v = none) ∧
        (runPipeline 1 (fun _ => (5 : ℚ))
            [wTrainRow, wTrainRowMiss, wInfRow]).2.length
          = (df2025 [wTrainRow, wTrainRowMiss, wInfRow]).length) :=
  ⟨by decide, imputation_postcondition_amended 1
    [wTrainRow, wTrainRowMiss, wInfRow] (fun _ => (5 : ℚ)) (by decide)⟩

/-- Reading an imputed row at a column whose fill value is `none` gives
back the original cell. -/
theorem fillFeats_getD_of_none (means fs : List (Option ℚ)) (j : Nat)
    (hjm : j < means.length) (hm : means.getD j none = none) :
    (fillFeats means fs).getD j none = fs.getD j none := by
  by_cases hz : j < (fillFeats means fs).length
  · have hjf : j < fs.length := by
      have h1 := hz
      rw [fillFeats, List.length_zipWith] at h1
      exact lt_of_lt_of_le h1 (min_le_right _ _)
    rw [List.getD_eq_getElem _ _ hz, List.getD_eq_getElem _ _ hjf]
    show (List.zipWith _ means fs)[j] = fs[j]
    rw [List.getElem_zipWith]
    have hmj : means[j] = none := by
      rw [← List.getD_eq_getElem means none hjm]
      exact hm
    cases hfj : fs[j] with
    | some x => rfl
    | none => rw [hmj]
  · have hlen : (fillFeats means fs).length = min means.length fs.length := by
      rw [fillFeats, List.length_zipWith]
    have hjf : fs.length ≤ j := by
      rcases Nat.lt_or_ge j fs.length with hlt | hge
      · exfalso
        apply hz
        rw [hlen]
        exact lt_min hjm hlt
      · exact hge
    rw [List.getD_eq_default _ _ (le_of_not_lt hz),
      List.getD_eq_default _ _ hjf]

/-- C10: a feature column with no missing training values receives no
fill value (`mean_val` is computed only under `X[col].isnull().any()`);
its inference-population cells — including missing ones — pass through the
imputer unchanged; missing cells only raise the warning flag; and the
pipeline still predicts for every inference row. -/
theorem inference_only_missing_unimputed (n : Nat) (master : List MRow)
    (predict : List (Option ℚ) → ℚ) (j : Nat) (hj : j < n)
    (hlen : ∀ r ∈ master, r.feats.length = n)
    (hfull : ∀ v ∈ featCol ((dfTrain master).map MRow.feats) j,
      v.isSome) :
    (imputeMeans n master).getD j none = none ∧
      featCol (prepare n master).xInfImp j =
        featCol ((df2025 master).map MRow.feats) j ∧
      ((∃ v ∈ featCol ((df2025 master).map MRow.feats) j, v = none) →
        (prepare n master).warned = true) ∧
      (runPipeline n predict master).2.length = (df2025 master).length := by
  have hjlen : j < (imputeMeans n master).length := by
    rw [imputeMeans_length]
    exact hj
  have hmean : (imputeMeans n master).getD j none = none := by
    rw [List.getD_eq_getElem _ _ hjlen, imputeMeans_getElem n master j hjlen]
    have hany : (featCol ((dfTrain master).map MRow.feats) j).any
        (fun v => v.isNone) = false := by
      apply List.any_eq_false.mpr
      intro v hv
      have h1 := hfull v hv
      intro h2
      rw [Option.isNone_iff_eq_none.mp h2] at h1
      exact Bool.noConfusion h1
    rw [hany]
    rfl
  have hpass : featCol (prepare n master).xInfImp j =
      featCol ((df2025 master).map MRow.feats) j := by
    show ((df2025 master).map
        (fun r => fillFeats (imputeMeans n master) r.feats)).map
          (fun row => row.getD j none) =
      ((df2025 master).map MRow.feats).map (fun row => row.getD j none)
    rw [List.map_map, List.map_map]
    apply List.map_congr_left
    intro r _
    exact fillFeats_getD_of_none _ _ j hjlen hmean
  refine ⟨hmean, hpass, ?_, ?_⟩
  · intro hex
    obtain ⟨v, hv, hvn⟩ := hex
    rcases List.mem_map.mp hv with ⟨fs, hfs, hfse⟩
    rcases List.mem_map.mp hfs with ⟨r, hr, hre⟩
    subst hre
    subst hfse
    have hrm : r ∈ master := (List.mem_filter.mp hr).1
    have hrow : fillFeats (imputeMeans n master) r.feats ∈
        (prepare n master).xInfImp :=
      List.mem_map.mpr ⟨r, hr, rfl⟩
    have hrowd : (fillFeats (imputeMeans n master) r.feats).getD j none
        = none := by
      rw [fillFeats_getD_of_none _ _ j hjlen hmean]
      exact hvn
    have hrowlen : j < (fillFeats (imputeMeans n master) r.feats).length := by
      rw [fillFeats, List.length_zipWith, imputeMeans_length, hlen r hrm]
      exact lt_min hj hj
    have hnone : (none : Option ℚ) ∈
        fillFeats (imputeMeans n master) r.feats := by
      rw [← hrowd, List.getD_eq_getElem _ _ hrowlen]
      exact List.getElem_mem hrowlen
    show ((_ : Bool) || _) = true
    rw [Bool.or_eq_true]
    exact Or.inr (List.any_eq_true.mpr ⟨_, hrow,
      List.any_eq_true.mpr ⟨none, hnone, rfl⟩⟩)
  · show (List.zipWith _ (df2025 master)
        ((df2025 master).map (fun r => fillFeats _ r.feats))).length = _
    rw [List.length_zipWith, List.length_map, min_self]

/-- Witness for C10 at the concrete master table of
`imputation_not_fatal_counterexample`'s scenario. -/
theorem inference_only_missing_unimputed_witness :
    (0 < 1 ∧ (∀ r ∈ [wTrainRow, wInfRow], r.feats.length = 1) ∧
        ∀ v ∈ featCol ((dfTrain [wTrainRow, wInfRow]).map MRow.feats) 0,
          v.isSome) ∧
      ((imputeMeans 1 [wTrainRow, wInfRow]).getD 0 none = none ∧
        featCol (prepare 1 [wTrainRow, wInfRow]).xInfImp 0 =
          featCol ((df2025 [wTrainRow, wInfRow]).map MRow.feats) 0 ∧
        ((∃ v ∈ featCol ((df2025 [wTrainRow, wInfRow]).map MRow.feats) 0,
            v = none) →
          (prepare 1 [wTrainRow, wInfRow]).warned = true) ∧
        (runPipeline 1 (fun _ => (5 : ℚ)) [wTrainRow, wInfRow]).2.length
          = (df2025 [wTrainRow, wInfRow]).length) :=
  ⟨⟨by decide, by decide, by decide⟩,
    inference_only_missing_unimputed 1 [wTrainRow, wInfRow]
      (fun _ => (5 : ℚ)) 0 (by decide) (by decide) (by decide)⟩

/-! ## C6: feature selection at prediction time -/

/-- Searching a list on which the predicate never holds finds nothing,
whatever the start index. -/
theorem findIdx?_none_of_all (p : String → Bool) :
    ∀ (l : List String) (i : Nat), (∀ x ∈ l, p x = false) →
      List.findIdx? p l i = none
  | [], _, _ => rfl
  | a :: l, i, hall => by
    rw [List.findIdx?_cons, hall a (List.mem_cons_self a l)]
    simp only [Bool.false_eq_true, if_false]
    exact findIdx?_none_of_all p l (i + 1)
      (fun x hx => hall x (List.mem_cons_of_mem a hx))

/-- Searching a list containing an element satisfying the predicate finds
some index. -/
theorem findIdx?_some_of_mem (p : String → Bool) :
    ∀ (l : List String) (i : Nat), (∃ x ∈ l, p x = true) →
      ∃ k, List.findIdx? p l i = some k
  | [], _, hex => absurd hex (by simp)
  | a :: l, i, hex => by
    by_cases ha : p a = true
    · exact ⟨i, by rw [List.findIdx?_cons, if_pos ha]⟩
    · obtain ⟨x, hx, hpx⟩ := hex
      have hx' : x ∈ l := by
        rcases List.mem_cons.mp hx with he | h
        · exact absurd (he ▸ hpx) ha
        · exact h
      obtain ⟨k, hk⟩ := findIdx?_some_of_mem p l (i + 1) ⟨x, hx', hpx⟩
      exact ⟨k, by rw [List.findIdx?_cons, if_neg ha, hk]⟩

/-- If one requested column name appears nowhere in the table header, the
whole index computation fails. -/
theorem colIdxs_eq_none_of_missing (header : List String) (c : String)
    (hc : ∀ h ∈ header, h ≠ c) :
    ∀ cs : List String, c ∈ cs → colIdxs header cs = none
  | [], hm => absurd hm (List.not_mem_nil c)
  | c2 :: cs, hm => by
    by_cases he : c2 = c
    · subst he
      have hfi : header.findIdx? (fun h => h = c2) = none :=
        findIdx?_none_of_all _ header 0 (fun x hx => by
          simp only [decide_eq_false_iff_not]
          exact hc x hx)
      rw [colIdxs, hfi]
    · have hm' : c ∈ cs := by
        rcases List.mem_cons.mp hm with h | h
        · exact absurd h.symm he
        · exact h
      have hrec := colIdxs_eq_none_of_missing header c hc cs hm'
      rw [colIdxs, hrec]
      cases header.findIdx? (fun h => h = c2) <;> rfl

/-- If every requested column name appears in the header, the index
computation succeeds. -/
theorem colIdxs_isSome_of_present (header : List String) :
    ∀ cs : List String, (∀ c ∈ cs, ∃ h ∈ header, h = c) →
      ∃ idxs, colIdxs header cs = some idxs
  | [], _ => ⟨[], rfl⟩
  | c :: cs, hall => by
    obtain ⟨h0, hh0, he⟩ := hall c (List.mem_cons_self c cs)
    obtain ⟨k, hk⟩ := findIdx?_some_of_mem (fun h => decide (h = c))
      header 0 ⟨h0, hh0, by simp [he]⟩
    obtain ⟨idxs, hidxs⟩ := colIdxs_isSome_of_present header cs
      (fun c2 hc2 => hall c2 (List.mem_cons_of_mem c hc2))
    exact ⟨k :: idxs, by rw [colIdxs, hk, hidxs]⟩

/-- C6 counterexample: the inference table `wTable` holds all trained
features but in the physical order `b, a`; applying the persisted training
list `a, b` succeeds with no error and silently returns the columns
reordered by name — the claimed fatal error on an order mismatch does not
occur, and no `ArtifactIntegrityError` exists in the code. -/
theorem silent_reorder_counterexample :
    selectCols wTable ["a", "b"]
        = Except.ok { header := ["a", "b"], rows := [[2, 1]] } ∧
      ∀ e, selectCols wTable ["a", "b"] ≠ Except.error e := by
  have h1 : selectCols wTable ["a", "b"]
      = Except.ok { header := ["a", "b"], rows := [[2, 1]] } := by decide
  exact ⟨h1, fun e hc => by rw [h1] at hc; exact Except.noConfusion hc⟩

/-- C6 amended: a feature named in the persisted training list but absent
from the inference table makes column selection fail with `KeyError`
before any prediction; but when every listed feature is present, selection
succeeds whatever the table's column order, returning the columns
reordered to the persisted list's order (a silent name-based reindex). -/
theorem feature_list_mismatch (t : Table) (cs : List String) :
    (∀ c : String, c ∈ cs → (∀ h ∈ t.header, h ≠ c) →
      selectCols t cs = Except.error "KeyError") ∧
      ((∀ c ∈ cs, ∃ h ∈ t.header, h = c) →
        ∃ t2, selectCols t cs = Except.ok t2 ∧ t2.header = cs) := by
  constructor
  · intro c hc hmiss
    rw [selectCols, colIdxs_eq_none_of_missing t.header c hmiss cs hc]
  · intro hall
    obtain ⟨idxs, hidxs⟩ := colIdxs_isSome_of_present t.header cs hall
    exact ⟨_, by rw [selectCols, hidxs], rfl⟩

/-- Witness for the amended C6: selecting the missing column `z` from
`wTable` fails; selecting the present (reshuffled) columns succeeds. -/
theorem feature_list_mismatch_witness :
    (("z" ∈ ["z"] ∧ ∀ h ∈ wTable.header, h ≠ "z") ∧
        selectCols wTable ["z"] = Except.error "KeyError") ∧
      ((∀ c ∈ ["a", "b"], ∃ h ∈ wTable.header, h = c) ∧
        ∃ t2, selectCols wTable ["a", "b"] = Except.ok t2 ∧
          t2.header = ["a", "b"]) :=
  ⟨⟨⟨by decide, by decide⟩,
      (feature_list_mismatch wTable ["z"]).1 "z" (by decide) (by decide)⟩,
    ⟨by decide, (feature_list_mismatch wTable ["a", "b"]).2 (by decide)⟩⟩

end CoffeeYield
